import Mathlib

/-!
Verification of the question-answering engine of this repository.

The frontend (TypeScript, under `src/frontend`) is embedded directly from its
source files (`InputBox.tsx`, `chat.service.ts`, `chat.types.ts`).  The backend
core (VectorCache, EmbeddingManager, Retriever, AnswerOrchestrator) is not
shipped in the source tree — only its README and the spec describe it — so it
is modelled from the spec, as marked on each definition.

Conventions: strings are `List Char` (so that trimming is explicit),
floating-point numbers are modelled as rationals `ℚ` (exact), and real-valued
similarity scores as `ℝ` with the square root passed explicitly.
-/

namespace QA

/-- A character is JS whitespace (the cases relevant to question text). -/
def isSpaceChar (c : Char) : Bool :=
  c = ' ' || c = '\t' || c = '\n' || c = '\r'

/-- JavaScript `String.prototype.trim`: strip leading and trailing whitespace. -/
def jsTrim (s : List Char) : List Char :=
  ((s.dropWhile isSpaceChar).reverse.dropWhile isSpaceChar).reverse

/-- Embedded from `src/frontend/src/components/chat/InputBox.tsx`
(`handleSubmit`): returns the submitted (trimmed) value, or `none` when the
form rejects the input (empty, shorter than 3 characters, or loading). -/
def handleSubmit (inputValue : List Char) (isLoading : Bool) : Option (List Char) :=
  let trimmedValue := jsTrim inputValue
  if trimmedValue = [] then none
  else if trimmedValue.length < 3 then none
  else if isLoading then none
  else some trimmedValue

/-- Modelled from the spec: the content fingerprint is a hash of the
document's text (the concrete backend hash is not in the source tree; any
deterministic function of the text is faithful to the spec's contract). -/
def fingerprintOf (t : List Char) : ℕ :=
  t.foldl (fun h c => (h * 31 + c.toNat) % 2 ^ 32) 7

/-- Modelled from the spec: a corpus document (`Document` in §3). -/
structure Document where
  id : List Char
  text : List Char
deriving DecidableEq

/-- Modelled from the spec: `EmbeddingRecord` (§3), generic in the scalar
type of the vector components. -/
structure EmbeddingRecord (K : Type) where
  document_id : List Char
  vector : List K
  model_name : List Char
  fingerprint : ℕ
deriving DecidableEq

/-- Modelled from the spec: the `Cache` structure (§3); `entries` is an
association list in document insertion order. -/
structure Cache (K : Type) where
  model_name : List Char
  dimension : ℕ
  entries : List (List Char × EmbeddingRecord K)
deriving DecidableEq

/-- Modelled from the spec: `VectorCache.get`. -/
def cacheGet {K : Type} (c : Cache K) (docId : List Char) : Option (EmbeddingRecord K) :=
  match c.entries.find? (fun p => decide (p.1 = docId)) with
  | none => none
  | some p => some p.2

/-- Overwrite-or-append on an association list (insertion order kept for an
existing key, new keys appended at the end). -/
def putEntry {K : Type} : List (List Char × EmbeddingRecord K) →
    (List Char × EmbeddingRecord K) → List (List Char × EmbeddingRecord K)
  | [], e => [e]
  | p :: rest, e => if p.1 = e.1 then e :: rest else p :: putEntry rest e

/-- Modelled from the spec: `VectorCache.put` — overwrites any existing record
for the same `document_id`. -/
def cachePut {K : Type} (c : Cache K) (r : EmbeddingRecord K) : Cache K :=
  { c with entries := putEntry c.entries (r.document_id, r) }

/-- Modelled from the spec: `VectorCache.is_fresh` — true iff a record exists
whose fingerprint matches the document's current fingerprint and whose model
matches the cache's model. -/
def isFresh {K : Type} (c : Cache K) (d : Document) : Bool :=
  match cacheGet c d.id with
  | none => false
  | some r => decide (r.fingerprint = fingerprintOf d.text ∧ r.model_name = c.model_name)

/-! ## Retriever (modelled from the spec, §4.3) -/

/-- Modelled from the spec: a retrieval result; `idx` is the insertion index
of the document in the cache (the rank is the position in the returned
list). -/
structure RetrievalResult (K : Type) where
  document_id : List Char
  similarity : K
  idx : ℕ
deriving DecidableEq

/-- The ordering used to sort retrieval results: similarity descending, ties
broken by cache insertion order. -/
def retrieveLE {K : Type} [LinearOrder K] (a b : RetrievalResult K) : Prop :=
  b.similarity < a.similarity ∨ (a.similarity = b.similarity ∧ a.idx ≤ b.idx)

instance {K : Type} [LinearOrder K] : DecidableRel (@retrieveLE K _) := fun a b => by
  unfold retrieveLE; infer_instance

instance {K : Type} [LinearOrder K] : IsTotal (RetrievalResult K) retrieveLE := by
  constructor
  intro a b
  rcases lt_trichotomy a.similarity b.similarity with h | h | h
  · exact Or.inr (Or.inl h)
  · rcases Nat.le_total a.idx b.idx with h2 | h2
    · exact Or.inl (Or.inr ⟨h, h2⟩)
    · exact Or.inr (Or.inr ⟨h.symm, h2⟩)
  · exact Or.inl (Or.inl h)

instance {K : Type} [LinearOrder K] : IsTrans (RetrievalResult K) retrieveLE := by
  constructor
  intro a b c hab hbc
  rcases hab with h1 | ⟨e1, i1⟩
  · rcases hbc with h2 | ⟨e2, i2⟩
    · exact Or.inl (h2.trans h1)
    · exact Or.inl (e2 ▸ h1)
  · rcases hbc with h2 | ⟨e2, i2⟩
    · exact Or.inl (e1 ▸ h2)
    · exact Or.inr ⟨e1.trans e2, i1.trans i2⟩

/-- Modelled from the spec: `Retriever.retrieve` — score every cached record
with `sim` against the query, discard scores below `minSim`, sort by
similarity descending (ties by insertion order) and truncate to
`maxResults`. -/
def retrieve {K : Type} [LinearOrder K] (sim : List K → List K → K)
    (query : List K) (c : Cache K) (maxResults : ℕ) (minSim : K) :
    List (RetrievalResult K) :=
  let scored := c.entries.enum.map
    (fun p => RetrievalResult.mk p.2.2.document_id (sim query p.2.2.vector) p.1)
  let kept := scored.filter (fun e => decide (minSim ≤ e.similarity))
  (List.insertionSort retrieveLE kept).take maxResults

/-! ## Cosine similarity (modelled from the spec, §4.3) -/

/-- Dot product of two coordinate lists (missing coordinates count as 0). -/
def dotProduct {K : Type} [Mul K] [AddCommMonoid K] (a b : List K) : K :=
  (List.zipWith (fun x y => x * y) a b).sum

/-- Squared Euclidean norm. -/
def normSq {K : Type} [Mul K] [AddCommMonoid K] (a : List K) : K :=
  dotProduct a a

/-- Modelled from the spec: cosine similarity,
`dot(a,b) / (norm(a) * norm(b))`, defined as `0` if either norm is `0`; the
square-root function of the scalar field is passed explicitly. -/
def cosineSim {K : Type} [LinearOrderedField K] (sqrtFn : K → K) (a b : List K) : K :=
  if normSq a = 0 ∨ normSq b = 0 then 0
  else dotProduct a b / (sqrtFn (normSq a) * sqrtFn (normSq b))

/-! ## EmbeddingManager (modelled from the spec, §4.2) -/

/-- Worker for `chunks`, structurally recursive on a fuel bound (any fuel at
least the list length gives the same result). -/
def chunksGo {α : Type} (b : ℕ) : ℕ → List α → List (List α)
  | 0, _ => []
  | _ + 1, [] => []
  | fuel + 1, x :: xs =>
    if b = 0 then [] else (x :: xs).take b :: chunksGo b fuel ((x :: xs).drop b)

/-- Group a list into consecutive batches of size `b` (the last batch may be
shorter); `b = 0` yields no batches. -/
def chunks {α : Type} (b : ℕ) (l : List α) : List (List α) :=
  chunksGo b l.length l

/-- Modelled from the spec: write one successfully embedded batch into the
cache (each document paired with its returned vector, stamped with the current
model name and the document's current fingerprint). -/
def writeBatch (model : List Char) (batch : List Document) (vs : List (List ℚ))
    (c : Cache ℚ) : Cache ℚ :=
  (batch.zip vs).foldl
    (fun acc p => cachePut acc ⟨p.1.id, p.2, model, fingerprintOf p.1.text⟩) c

/-- Modelled from the spec: run the pending batches through the embedding
capability; a successful batch is written to the cache (and counted), a failed
batch contributes its document ids to `failed_ids` and reconciliation
continues with the next batch. Returns (embedded count, failed ids, cache). -/
def runBatches (embed : List (List Char) → Option (List (List ℚ)))
    (model : List Char) :
    List (List Document) → Cache ℚ → ℕ × List (List Char) × Cache ℚ
  | [], c => (0, [], c)
  | batch :: rest, c =>
    match embed (batch.map Document.text) with
    | some vs =>
      let out := runBatches embed model rest (writeBatch model batch vs c)
      (batch.length + out.1, out.2.1, out.2.2)
    | none =>
      let out := runBatches embed model rest c
      (out.1, batch.map Document.id ++ out.2.1, out.2.2)

/-- Modelled from the spec: the result record of `reconcile`. -/
structure ReconcileResult where
  embedded_count : ℕ
  reused_count : ℕ
  failed_ids : List (List Char)
deriving DecidableEq

/-- Modelled from the spec: `EmbeddingManager.reconcile` — skip documents that
are fresh in the cache (unless `force` is set), batch the pending ones, embed
batch by batch, and report counts and failed ids together with the updated
cache.  The embedding capability is modelled as a deterministic function of
the batch texts (its internal per-batch retry does not change the outcome of a
deterministic capability). -/
def reconcile (batchSize : ℕ) (embed : List (List Char) → Option (List (List ℚ)))
    (force : Bool) (corpus : List Document) (c : Cache ℚ) :
    ReconcileResult × Cache ℚ :=
  let pending := corpus.filter (fun d => force || !isFresh c d)
  let out := runBatches embed c.model_name (chunks batchSize pending) c
  (⟨out.1, corpus.length - pending.length, out.2.1⟩, out.2.2)

/-- The shape of a batch list produced by `chunks b`: every batch is nonempty,
every batch except the last has length exactly `b`, and the last has length at
most `b`. -/
inductive ChunkShape {α : Type} (b : ℕ) : List (List α) → Prop
  | nil : ChunkShape b []
  | single (l : List α) : l ≠ [] → l.length ≤ b → ChunkShape b [l]
  | cons (l : List α) (L : List (List α)) : l.length = b → L ≠ [] → ChunkShape b L →
      ChunkShape b (l :: L)

/-! ## Cache persistence (modelled from the spec, §4.1 and §6) -/

/-- Modelled from the spec: the serialized on-disk structure
`{model_name, dimension, entries}` (§6). -/
structure CacheFile where
  model_name : List Char
  dimension : ℕ
  entries : List (List Char × EmbeddingRecord ℚ)
deriving DecidableEq

/-- Modelled from the spec: `VectorCache.persist` — serialize the cache. -/
def persist (c : Cache ℚ) : CacheFile := ⟨c.model_name, c.dimension, c.entries⟩

/-- A serialized file matches the expected schema: every entry is keyed by its
record's document id, and every record carries the file's model name and a
vector of the file's dimension. -/
def wfFile (f : CacheFile) : Bool :=
  f.entries.all fun p =>
    decide (p.1 = p.2.document_id ∧ p.2.model_name = f.model_name ∧
      p.2.vector.length = f.dimension)

/-- The empty cache for a given model and dimension. -/
def emptyCache (model : List Char) (dim : ℕ) : Cache ℚ := ⟨model, dim, []⟩

/-- Modelled from the spec: `VectorCache.load` — a missing file gives an empty
cache; a file that does not deserialize into the expected schema is
`CacheCorrupt`, treated as an empty cache (never fatal). -/
def load (model : List Char) (dim : ℕ) (file : Option CacheFile) : Cache ℚ :=
  match file with
  | none => emptyCache model dim
  | some f => if wfFile f then ⟨f.model_name, f.dimension, f.entries⟩ else emptyCache model dim

/-- The in-memory cache invariant (§3): the cache serializes to a well-formed
file. -/
def wfCache (c : Cache ℚ) : Prop := wfFile (persist c) = true

/-! ## Retry policy and AnswerOrchestrator (modelled from the spec, §4.4) -/

/-- Modelled from the spec: a typed capability error with a transience flag. -/
structure CapabilityError where
  message : List Char
  transient : Bool
deriving DecidableEq

/-- One run of the retry loop: `f` maps the 0-based attempt index to the
capability outcome; `made` attempts were already made. Returns (total calls
made, backoff delays slept, final outcome). A transient failure with attempts
remaining sleeps `base * mult ^ attemptIndex` and retries; a non-transient
failure stops at once. -/
def retryGo {α : Type} (f : ℕ → Except CapabilityError α) (base mult : ℚ) :
    ℕ → ℕ → ℕ × List ℚ × Except CapabilityError α
  | 0, made => (made, [], .error ⟨[], false⟩)
  | remaining + 1, made =>
    match f made with
    | .ok a => (made + 1, [], .ok a)
    | .error e =>
      if e.transient ∧ remaining ≠ 0 then
        let out := retryGo f base mult remaining (made + 1)
        (out.1, base * mult ^ made :: out.2.1, out.2.2)
      else (made + 1, [], .error e)

/-- Modelled from the spec: the retry policy (§9): up to `maxAttempts`
attempts, exponential backoff between attempts, retrying only transient
failures. -/
def retryPolicy {α : Type} (maxAttempts : ℕ) (base mult : ℚ)
    (f : ℕ → Except CapabilityError α) : ℕ × List ℚ × Except CapabilityError α :=
  retryGo f base mult maxAttempts 0

/-- Modelled from the spec: the configuration surface consumed by the
orchestrator (§6). -/
structure AnswerConfig where
  minQuestionLength : ℕ
  maxQuestionLength : ℕ
  maxAttempts : ℕ
  baseDelay : ℚ
  backoffMultiplier : ℚ
  maxResults : ℕ
  minSimilarity : ℚ
deriving DecidableEq

/-- Modelled from the spec: the `Validating` state — reject when the trimmed
question is empty, shorter than the configured minimum, or longer than the
configured maximum; otherwise hand the trimmed question on. -/
def validateQuestion (cfg : AnswerConfig) (q : List Char) :
    Except (List Char) (List Char) :=
  let t := jsTrim q
  if t = [] then .error "question is empty".toList
  else if t.length < cfg.minQuestionLength then .error "question too short".toList
  else if cfg.maxQuestionLength < t.length then .error "question too long".toList
  else .ok t

/-- Modelled from the spec: the `Success` payload of `AnswerOutcome` (§3). -/
structure SuccessOutcome where
  answer : List Char
  confidence : ℚ
  processing_time_ms : ℕ
  sources : List (List Char)
  retrieved_count : ℕ
  similarity_scores : List ℚ
deriving DecidableEq

/-- Modelled from the spec: the `AnswerOutcome` sum type (§3). -/
inductive AnswerOutcome where
  | success (d : SuccessOutcome)
  | validationError (reason : List Char)
  | processingError (reason : List Char)
deriving DecidableEq

/-- Modelled from the spec: the fixed default confidence used when no sources
were retrieved (the exact value is a tunable; any constant in [0,1] is
faithful). -/
def defaultConfidence : ℚ := mkRat 1 2

/-- Modelled from the spec: confidence from the retrieval similarity scores —
the top similarity clamped to [0,1] when sources were retrieved, the fixed
default otherwise. -/
def confidenceFrom (sims : List ℚ) : ℚ :=
  match sims with
  | [] => defaultConfidence
  | top :: _ => max 0 (min 1 top)

/-- Modelled from the spec: `AnswerOrchestrator.answer` — validate, embed the
query under the retry policy, retrieve, generate under the retry policy,
assemble the outcome.  The two capabilities are modelled as functions of the
0-based attempt index; wall-clock time is outside the model, so
`processing_time_ms` is fixed at 0. -/
def answer (cfg : AnswerConfig) (sim : List ℚ → List ℚ → ℚ)
    (embedF : ℕ → Except CapabilityError (List ℚ))
    (genF : ℕ → Except CapabilityError (List Char))
    (cache : Cache ℚ) (q : List Char) : AnswerOutcome :=
  match validateQuestion cfg q with
  | .error r => .validationError r
  | .ok _ =>
    match (retryPolicy cfg.maxAttempts cfg.baseDelay cfg.backoffMultiplier embedF).2.2 with
    | .error e => .processingError e.message
    | .ok qv =>
      let results := retrieve sim qv cache cfg.maxResults cfg.minSimilarity
      match (retryPolicy cfg.maxAttempts cfg.baseDelay cfg.backoffMultiplier genF).2.2 with
      | .error e => .processingError e.message
      | .ok ans =>
        .success
          { answer := ans
            confidence := confidenceFrom (results.map RetrievalResult.similarity)
            processing_time_ms := 0
            sources := results.map RetrievalResult.document_id
            retrieved_count := results.length
            similarity_scores := results.map RetrievalResult.similarity }

/-! ## Frontend response types (embedded from
`src/frontend/src/types/chat.types.ts`) -/

/-- Embedded from `chat.types.ts`: the `metadata` object of `SuccessData`. -/
structure MetadataR where
  model_used : String
  documents_retrieved : ℚ
  similarity_scores : List ℚ
deriving DecidableEq

/-- Embedded from `chat.types.ts`: `SuccessData` (its `status` field is the
literal string "success", recovered by `statusString`). -/
structure SuccessDataR where
  answer : String
  question : String
  confidence : ℚ
  processing_time_ms : ℚ
  sources : List String
  metadata : MetadataR
deriving DecidableEq

/-- Embedded from `chat.types.ts`: the `status` literal of `ErrorData`,
either "validation_error" or "error". -/
inductive ErrStatus where
  | validationError
  | err
deriving DecidableEq

/-- Embedded from `chat.types.ts`: `ErrorData` (its `confidence`, `sources`
and `metadata` fields are typed as `null`, so they carry no data and are
recovered as `none` by `fieldsOf`). -/
structure ErrorDataR where
  answer : String
  question : String
  status : ErrStatus
  processing_time_ms : Option ℚ
deriving DecidableEq

/-- The runtime payload of an API envelope: either success-shaped or
error-shaped data (both shapes share the `answer` field used by
`getErrorMessage`). -/
inductive EnvData where
  | success (d : SuccessDataR)
  | error (d : ErrorDataR)
deriving DecidableEq

/-- The `answer` field shared by both payload shapes. -/
def EnvData.answerField : EnvData → String
  | .success d => d.answer
  | .error d => d.answer

/-- Embedded from `chat.types.ts`: `ApiError`. -/
structure ApiErrorR where
  field : String
  type : String
  message : String
deriving DecidableEq

/-- Embedded from `chat.types.ts`: `ApiMetadata`. -/
structure ApiMetadataR where
  request_id : String
  timestamp : String
  route : String
deriving DecidableEq

/-- Embedded from `chat.types.ts`: the envelope status literal. -/
inductive EnvStatus where
  | success
  | error
deriving DecidableEq

/-- Embedded from `chat.types.ts`: `ApiResponse<T>` with `data : T | null`. -/
structure ApiEnvelope where
  status : EnvStatus
  code : ℚ
  data : Option EnvData
  message : String
  errors : List ApiErrorR
  metadata : ApiMetadataR
deriving DecidableEq

/-- Embedded from `chat.types.ts`: one element of `PydanticError.detail`. -/
structure PydDetailItem where
  loc : List String
  msg : String
  type : String
deriving DecidableEq

/-- Embedded from `chat.types.ts`: `PydanticError`. -/
structure PydanticErrorR where
  detail : List PydDetailItem
deriving DecidableEq

/-- Embedded from `chat.types.ts`: the union
`ChatApiResponse = SuccessResponse | ErrorResponse | PydanticError` as it is
discriminated at runtime (an envelope has a `status` field, a Pydantic error
has a `detail` field). -/
inductive ChatApiResponseR where
  | env (e : ApiEnvelope)
  | pyd (p : PydanticErrorR)
deriving DecidableEq

/-- Embedded from `chat.service.ts`: `ChatService.isErrorResponse` —
`'status' in response && response.status === 'error'`. -/
def isErrorResponse : ChatApiResponseR → Bool
  | .env e => e.status = EnvStatus.error
  | .pyd _ => false

/-- Embedded from `chat.service.ts`: `ChatService.isPydanticError` —
`'detail' in response`. -/
def isPydanticError : ChatApiResponseR → Bool
  | .env _ => false
  | .pyd _ => true

/-- A JavaScript expression value: a thrown `TypeError` (`.error ()`),
`undefined` (`.ok none`), or a string value (`.ok (some s)`). -/
abbrev JsVal (α : Type) := Except Unit (Option α)

/-- JavaScript string truthiness: the empty string is falsy. -/
def strTruthy (s : String) : Bool := s ≠ ""

/-- JavaScript `a || b` on (possibly undefined, possibly thrown) string
values: a thrown left side propagates; an undefined or falsy left side yields
the right side. -/
def jsOrStr (a : JsVal String) (b : JsVal String) : JsVal String :=
  match a with
  | .error u => .error u
  | .ok none => b
  | .ok (some s) => if strTruthy s then .ok (some s) else b

/-- Embedded from `chat.service.ts`: `ChatService.getErrorMessage`, with each
JavaScript field access modelled explicitly (`?.` maps `undefined`/`null`
to `undefined` instead of throwing).  The result is `.error ()` if the
JavaScript code would throw, `.ok none` if it would return `undefined`, and
`.ok (some s)` if it returns the string `s`. -/
def getErrorMessage (response : ChatApiResponseR) : JsVal String :=
  if isErrorResponse response then
    match response with
    | .env e =>
      jsOrStr (jsOrStr (.ok (e.data.map EnvData.answerField))
          (.ok (some e.message)))
        (.ok (some "Error desconocido"))
    | .pyd _ => .ok none
  else if isPydanticError response then
    match response with
    | .env _ => .ok none
    | .pyd p =>
      jsOrStr (.ok ((p.detail.head?).map PydDetailItem.msg))
        (.ok (some "Error de validación"))
  else .ok (some "Error desconocido")

/-- Embedded from `chat.types.ts`: a value crossing the public interface is
either success-shaped or error-shaped; the discriminant is the `status`
string. -/
def statusString : EnvData → String
  | .success _ => "success"
  | .error d =>
    match d.status with
    | .validationError => "validation_error"
    | .err => "error"

/-- The nullable fields of the two payload shapes as they appear at the
public interface (JSON): `null` is `none`. -/
structure OutcomeFields where
  confidence : Option ℚ
  processing_time_ms : Option ℚ
  sources : Option (List String)
  metadata : Option MetadataR
deriving DecidableEq

/-- Erase a typed payload to its runtime nullable fields: `ErrorData` declares
`confidence`, `sources` and `metadata` as `null`. -/
def fieldsOf : EnvData → OutcomeFields
  | .success d => ⟨some d.confidence, some d.processing_time_ms, some d.sources, some d.metadata⟩
  | .error d => ⟨none, d.processing_time_ms, none, none⟩

/-! ## Theorems -/

theorem validateQuestion_ok (cfg : AnswerConfig) (q : List Char)
    (hmin : cfg.minQuestionLength ≤ (jsTrim q).length)
    (hmax : (jsTrim q).length ≤ cfg.maxQuestionLength)
    (hne : jsTrim q ≠ []) :
    validateQuestion cfg q = .ok (jsTrim q) := by
  unfold validateQuestion
  simp only [if_neg hne, if_neg (Nat.not_lt.mpr hmin), if_neg (Nat.not_lt.mpr hmax)]

theorem validateQuestion_short (cfg : AnswerConfig) (q : List Char)
    (h : (jsTrim q).length < cfg.minQuestionLength) :
    ∃ r, validateQuestion cfg q = .error r := by
  unfold validateQuestion
  by_cases he : jsTrim q = []
  · exact ⟨"question is empty".toList, by simp [he]⟩
  · exact ⟨"question too short".toList, by simp [he, h]⟩

theorem answer_not_validationError_of_valid (cfg : AnswerConfig)
    (sim : List ℚ → List ℚ → ℚ) (embedF : ℕ → Except CapabilityError (List ℚ))
    (genF : ℕ → Except CapabilityError (List Char)) (cache : Cache ℚ)
    (q : List Char) (t : List Char) (hv : validateQuestion cfg q = .ok t) :
    ∀ r, answer cfg sim embedF genF cache q ≠ .validationError r := by
  intro r
  unfold answer
  rw [hv]
  cases (retryPolicy cfg.maxAttempts cfg.baseDelay cfg.backoffMultiplier embedF).2.2 with
  | error e => simp
  | ok qv =>
    cases (retryPolicy cfg.maxAttempts cfg.baseDelay cfg.backoffMultiplier genF).2.2 with
    | error e => simp
    | ok ans => simp

/-- Claim C1: a question whose trimmed text is empty or shorter than 3
characters is rejected — the orchestrator returns `ValidationError` and the
input box never submits it — while a question whose trimmed text has length
between 3 and the configured maximum proceeds past validation (it is
submitted, and the outcome is never `ValidationError`). -/
theorem claim_C1 (cfg : AnswerConfig) (sim : List ℚ → List ℚ → ℚ)
    (embedF : ℕ → Except CapabilityError (List ℚ))
    (genF : ℕ → Except CapabilityError (List Char)) (cache : Cache ℚ)
    (q : List Char) (hcfg : cfg.minQuestionLength = 3) :
    ((jsTrim q).length < 3 →
      (∃ r, answer cfg sim embedF genF cache q = .validationError r) ∧
        handleSubmit q false = none) ∧
    (3 ≤ (jsTrim q).length → (jsTrim q).length ≤ cfg.maxQuestionLength →
      (∀ r, answer cfg sim embedF genF cache q ≠ .validationError r) ∧
        handleSubmit q false = some (jsTrim q)) := by
  constructor
  · intro hshort
    constructor
    · obtain ⟨r, hr⟩ := validateQuestion_short cfg q (hcfg ▸ hshort)
      refine ⟨r, ?_⟩
      unfold answer
      rw [hr]
    · unfold handleSubmit
      by_cases he : jsTrim q = []
      · simp [he]
      · simp [he, hshort]
  · intro hmin hmax
    have hne : jsTrim q ≠ [] := by
      intro he
      rw [he] at hmin
      simp at hmin
    have hv := validateQuestion_ok cfg q (hcfg ▸ hmin) hmax hne
    refine ⟨answer_not_validationError_of_valid cfg sim embedF genF cache q _ hv, ?_⟩
    unfold handleSubmit
    simp [hne, Nat.not_lt.mpr hmin]

/-- Witness for C1 at the spec's own examples: `"hi"` (2 characters) is
rejected by both the input box and the orchestrator, `"valid question"`
proceeds past validation and is submitted. -/
theorem claim_C1_witness :
    ((∃ r, answer ⟨3, 500, 3, 1, 2, 5, 0⟩ (fun _ _ => 0) (fun _ => .ok [])
        (fun _ => .ok []) (emptyCache "m".toList 1) "hi".toList = .validationError r) ∧
      handleSubmit "hi".toList false = none) ∧
    ((∀ r, answer ⟨3, 500, 3, 1, 2, 5, 0⟩ (fun _ _ => 0) (fun _ => .ok [])
        (fun _ => .ok []) (emptyCache "m".toList 1) "valid question".toList ≠
          .validationError r) ∧
      handleSubmit "valid question".toList false = some (jsTrim "valid question".toList)) := by
  constructor
  · exact (claim_C1 ⟨3, 500, 3, 1, 2, 5, 0⟩ (fun _ _ => 0) (fun _ => .ok [])
      (fun _ => .ok []) (emptyCache "m".toList 1) "hi".toList rfl).1 (by decide)
  · exact (claim_C1 ⟨3, 500, 3, 1, 2, 5, 0⟩ (fun _ _ => 0) (fun _ => .ok [])
      (fun _ => .ok []) (emptyCache "m".toList 1) "valid question".toList rfl).2
      (by decide) (by decide)

/-- Claim C2: the answering operation is total — for every input it returns
exactly one of the three `AnswerOutcome` variants; no error propagates past
the boundary. -/
theorem claim_C2 (cfg : AnswerConfig) (sim : List ℚ → List ℚ → ℚ)
    (embedF : ℕ → Except CapabilityError (List ℚ))
    (genF : ℕ → Except CapabilityError (List Char)) (cache : Cache ℚ)
    (q : List Char) :
    (∃ d, answer cfg sim embedF genF cache q = .success d) ∨
    (∃ r, answer cfg sim embedF genF cache q = .validationError r) ∨
    (∃ r, answer cfg sim embedF genF cache q = .processingError r) := by
  cases h : answer cfg sim embedF genF cache q with
  | success d => exact Or.inl ⟨d, rfl⟩
  | validationError r => exact Or.inr (Or.inl ⟨r, rfl⟩)
  | processingError r => exact Or.inr (Or.inr ⟨r, rfl⟩)

theorem jsOrStr_total (a : Option String) (t : String) :
    ∃ s, jsOrStr (.ok a) (.ok (some t)) = .ok (some s) := by
  cases a with
  | none => exact ⟨t, rfl⟩
  | some v =>
    by_cases hv : strTruthy v
    · exact ⟨v, by simp [jsOrStr, hv]⟩
    · exact ⟨t, by simp [jsOrStr, hv]⟩

/-- Claim C9: `ChatService.getErrorMessage` is total — on every response value
of any of the three API response shapes it returns a string (it never throws
and never returns `undefined`), and the empty-`detail` Pydantic case falls
back to the default validation message. -/
theorem claim_C9 (r : ChatApiResponseR) :
    ∃ s, getErrorMessage r = .ok (some s) ∧
      (∀ p, r = .pyd p → p.detail = [] → s = "Error de validación") := by
  cases r with
  | env e =>
    have hvac : ∀ p, ChatApiResponseR.env e = .pyd p → p.detail = [] →
        True := fun _ _ _ => trivial
    cases hst : e.status with
    | success =>
      refine ⟨"Error desconocido", ?_, fun p hp => by cases hp⟩
      simp [getErrorMessage, isErrorResponse, isPydanticError, hst]
    | error =>
      obtain ⟨s1, h1⟩ := jsOrStr_total (e.data.map EnvData.answerField) e.message
      obtain ⟨s2, h2⟩ := jsOrStr_total (some s1) "Error desconocido"
      refine ⟨s2, ?_, fun p hp => by cases hp⟩
      simp only [getErrorMessage, isErrorResponse, hst]
      simp only [decide_True, if_pos]
      rw [h1, h2]
  | pyd p =>
    cases hd : p.detail with
    | nil =>
      refine ⟨"Error de validación", ?_, fun p' _ _ => rfl⟩
      simp [getErrorMessage, isErrorResponse, isPydanticError, jsOrStr, hd]
    | cons i rest =>
      obtain ⟨s, hs⟩ := jsOrStr_total (some i.msg) "Error de validación"
      refine ⟨s, ?_, fun p' hp' hdet => ?_⟩
      · simp only [getErrorMessage, isErrorResponse, isPydanticError, hd]
        simp only [List.head?_cons, Option.map_some']
        simpa using hs
      · injection hp' with h
        rw [← h, hd] at hdet
        exact absurd hdet (by simp)

/-- Witness for C9: the documented edge case — a Pydantic error with an empty
`detail` array — yields the default validation message. -/
theorem claim_C9_witness :
    ∃ s, getErrorMessage (.pyd ⟨[]⟩) = .ok (some s) ∧
      (∀ p, ChatApiResponseR.pyd ⟨[]⟩ = .pyd p → p.detail = [] →
        s = "Error de validación") :=
  claim_C9 (.pyd ⟨[]⟩)

/-- Claim C10: the response data types keep the discriminated-union invariant:
an error-status payload (status "error" or "validation_error") carries null
`confidence`, `sources` and `metadata` (its `processing_time_ms` may be
null), and a success-status payload carries a numeric `confidence`, a numeric
`processing_time_ms`, a `sources` array and non-null `metadata`. -/
theorem claim_C10 (v : EnvData) :
    ((statusString v = "error" ∨ statusString v = "validation_error") →
      (fieldsOf v).confidence = none ∧ (fieldsOf v).sources = none ∧
        (fieldsOf v).metadata = none) ∧
    (statusString v = "success" →
      (∃ c, (fieldsOf v).confidence = some c) ∧
      (∃ t, (fieldsOf v).processing_time_ms = some t) ∧
      (∃ s, (fieldsOf v).sources = some s) ∧
      (∃ m, (fieldsOf v).metadata = some m)) := by
  cases v with
  | success d =>
    refine ⟨fun h => ?_, fun _ => ?_⟩
    · rcases h with h | h <;> exact absurd h (by simp [statusString])
    · exact ⟨⟨d.confidence, rfl⟩, ⟨d.processing_time_ms, rfl⟩, ⟨d.sources, rfl⟩,
        ⟨d.metadata, rfl⟩⟩
  | error d =>
    refine ⟨fun _ => ⟨rfl, rfl, rfl⟩, fun h => ?_⟩
    cases hs : d.status <;> simp [statusString, hs] at h

/-- Witness for C10 at concrete payloads: an error-shaped value with status
"error" erases to null confidence, sources and metadata; a success-shaped
value has all four fields present. -/
theorem claim_C10_witness :
    ((fieldsOf (.error ⟨"a", "q", ErrStatus.err, none⟩)).confidence = none ∧
      (fieldsOf (.error ⟨"a", "q", ErrStatus.err, none⟩)).sources = none ∧
      (fieldsOf (.error ⟨"a", "q", ErrStatus.err, none⟩)).metadata = none) ∧
    (∃ c, (fieldsOf (.success ⟨"a", "q", 1, 5, [], ⟨"m", 0, []⟩⟩)).confidence = some c) :=
  ⟨(claim_C10 (.error ⟨"a", "q", ErrStatus.err, none⟩)).1 (Or.inl rfl),
    ((claim_C10 (.success ⟨"a", "q", 1, 5, [], ⟨"m", 0, []⟩⟩)).2 rfl).1⟩

theorem normSq_cons {K : Type} [LinearOrderedRing K] (x : K) (l : List K) :
    normSq (x :: l) = x * x + normSq l := by
  simp [normSq, dotProduct]

theorem normSq_nonneg {K : Type} [LinearOrderedRing K] (l : List K) :
    0 ≤ normSq l := by
  induction l with
  | nil => simp [normSq, dotProduct]
  | cons x l ih =>
    rw [normSq_cons]
    exact add_nonneg (mul_self_nonneg x) ih

theorem sqrt_normSq_eq_zero_iff (a : List ℝ) :
    Real.sqrt (normSq a) = 0 ↔ normSq a = 0 := by
  constructor
  · intro h
    have := (Real.sqrt_eq_zero (normSq_nonneg a)).mp h
    exact this
  · intro h
    rw [h, Real.sqrt_zero]

/-- Claim C4: the similarity computation is total — it equals
`dot(a,b) / (norm(a) * norm(b))` when both norms are nonzero and `0` when
either norm is zero, so it never divides by zero, also on all-zero vectors. -/
theorem claim_C4 (a b : List ℝ) :
    (Real.sqrt (normSq a) = 0 ∨ Real.sqrt (normSq b) = 0 →
      cosineSim Real.sqrt a b = 0) ∧
    (Real.sqrt (normSq a) ≠ 0 → Real.sqrt (normSq b) ≠ 0 →
      cosineSim Real.sqrt a b =
        dotProduct a b / (Real.sqrt (normSq a) * Real.sqrt (normSq b)) ∧
      cosineSim Real.sqrt a b *
        (Real.sqrt (normSq a) * Real.sqrt (normSq b)) = dotProduct a b) := by
  constructor
  · intro h
    have h0 : normSq a = 0 ∨ normSq b = 0 := by
      rcases h with h | h
      · exact Or.inl ((sqrt_normSq_eq_zero_iff a).mp h)
      · exact Or.inr ((sqrt_normSq_eq_zero_iff b).mp h)
    simp [cosineSim, h0]
  · intro ha hb
    have h0 : ¬(normSq a = 0 ∨ normSq b = 0) := by
      rintro (h | h)
      · exact ha ((sqrt_normSq_eq_zero_iff a).mpr h)
      · exact hb ((sqrt_normSq_eq_zero_iff b).mpr h)
    have he : cosineSim Real.sqrt a b =
        dotProduct a b / (Real.sqrt (normSq a) * Real.sqrt (normSq b)) := by
      simp [cosineSim, h0]
    exact ⟨he, by rw [he]; exact div_mul_cancel₀ _ (mul_ne_zero ha hb)⟩

/-- Witness for C4 at concrete vectors: `[1]` against `[1]` has nonzero norms
and its similarity times the norm product recovers the dot product; `[0]`
against `[1]` has a zero norm and similarity `0`. -/
theorem claim_C4_witness :
    cosineSim Real.sqrt [(0 : ℝ)] [1] = 0 ∧
    cosineSim Real.sqrt [(1 : ℝ)] [1] *
      (Real.sqrt (normSq [(1 : ℝ)]) * Real.sqrt (normSq [(1 : ℝ)])) =
        dotProduct [(1 : ℝ)] [1] := by
  have h0 : normSq [(0 : ℝ)] = 0 := by norm_num [normSq, dotProduct]
  have h1 : normSq [(1 : ℝ)] = 1 := by norm_num [normSq, dotProduct]
  have hs : Real.sqrt (normSq [(1 : ℝ)]) ≠ 0 := by
    rw [h1, Real.sqrt_one]; norm_num
  exact ⟨(claim_C4 [(0 : ℝ)] [1]).1 (Or.inl (by rw [h0, Real.sqrt_zero])),
    ((claim_C4 [(1 : ℝ)] [1]).2 hs hs).2⟩

theorem confidenceFrom_bounds (sims : List ℚ) :
    0 ≤ confidenceFrom sims ∧ confidenceFrom sims ≤ 1 := by
  cases sims with
  | nil => exact ⟨by decide, by decide⟩
  | cons top rest =>
    refine ⟨le_max_left 0 _, max_le (by norm_num) (min_le_left 1 top)⟩

theorem answer_success_confidence (cfg : AnswerConfig) (sim : List ℚ → List ℚ → ℚ)
    (embedF : ℕ → Except CapabilityError (List ℚ))
    (genF : ℕ → Except CapabilityError (List Char)) (cache : Cache ℚ)
    (q : List Char) (d : SuccessOutcome)
    (h : answer cfg sim embedF genF cache q = .success d) :
    d.confidence = confidenceFrom d.similarity_scores := by
  unfold answer at h
  cases hv : validateQuestion cfg q with
  | error r => rw [hv] at h; exact AnswerOutcome.noConfusion h
  | ok t =>
    rw [hv] at h
    cases he : (retryPolicy cfg.maxAttempts cfg.baseDelay cfg.backoffMultiplier embedF).2.2 with
    | error e => rw [he] at h; exact AnswerOutcome.noConfusion h
    | ok qv =>
      rw [he] at h
      cases hg : (retryPolicy cfg.maxAttempts cfg.baseDelay cfg.backoffMultiplier genF).2.2 with
      | error e => simp only [hg] at h; exact AnswerOutcome.noConfusion h
      | ok ans =>
        simp only [hg] at h
        injection h with h'
        rw [← h']

/-- Claim C8: for every `Success` outcome the confidence lies in [0,1], it is
the (monotone-in-the-top-score) function `confidenceFrom` of the retrieval
similarity scores, and when no sources were retrieved it is the fixed
default. -/
theorem claim_C8 (cfg : AnswerConfig) (sim : List ℚ → List ℚ → ℚ)
    (embedF : ℕ → Except CapabilityError (List ℚ))
    (genF : ℕ → Except CapabilityError (List Char)) (cache : Cache ℚ)
    (q : List Char) (d : SuccessOutcome) (s t : ℚ) (rest : List ℚ) :
    (answer cfg sim embedF genF cache q = .success d →
      0 ≤ d.confidence ∧ d.confidence ≤ 1 ∧
      d.confidence = confidenceFrom d.similarity_scores ∧
      (d.similarity_scores = [] → d.confidence = defaultConfidence)) ∧
    (s ≤ t → confidenceFrom (s :: rest) ≤ confidenceFrom (t :: rest)) := by
  constructor
  · intro h
    have hc := answer_success_confidence cfg sim embedF genF cache q d h
    obtain ⟨h0, h1⟩ := confidenceFrom_bounds d.similarity_scores
    refine ⟨hc ▸ h0, hc ▸ h1, hc, fun hnil => ?_⟩
    rw [hc, hnil]
    rfl
  · intro hst
    simp only [confidenceFrom]
    exact max_le_max le_rfl (min_le_min le_rfl hst)

/-- Witness for C8: a concrete run that succeeds with no retrieved sources
has the default confidence, which lies in [0,1]; the monotonicity part at
concrete scores 0 ≤ 1. -/
theorem claim_C8_witness :
    (0 ≤ (SuccessOutcome.mk "a".toList defaultConfidence 0 [] 0 []).confidence ∧
      (SuccessOutcome.mk "a".toList defaultConfidence 0 [] 0 []).confidence ≤ 1 ∧
      (SuccessOutcome.mk "a".toList defaultConfidence 0 [] 0 []).confidence =
        confidenceFrom (SuccessOutcome.mk "a".toList defaultConfidence 0 [] 0 []).similarity_scores ∧
      ((SuccessOutcome.mk "a".toList defaultConfidence 0 [] 0 []).similarity_scores = [] →
        (SuccessOutcome.mk "a".toList defaultConfidence 0 [] 0 []).confidence =
          defaultConfidence)) ∧
    confidenceFrom [(0 : ℚ)] ≤ confidenceFrom [(1 : ℚ)] :=
  ⟨(claim_C8 ⟨3, 500, 1, 1, 2, 5, 0⟩ (fun _ _ => 0) (fun _ => .ok [])
      (fun _ => .ok "a".toList) (emptyCache "m".toList 1) "valid question".toList
      (SuccessOutcome.mk "a".toList defaultConfidence 0 [] 0 []) 0 1 []).1 (by decide),
    (claim_C8 ⟨3, 500, 1, 1, 2, 5, 0⟩ (fun _ _ => 0) (fun _ => .ok [])
      (fun _ => .ok "a".toList) (emptyCache "m".toList 1) "valid question".toList
      (SuccessOutcome.mk "a".toList defaultConfidence 0 [] 0 []) 0 1 []).2 (by decide)⟩

theorem retryGo_transient {α : Type} (f : ℕ → Except CapabilityError α)
    (base mult : ℚ) (hf : ∀ i, ∃ m, f i = .error ⟨m, true⟩) :
    ∀ remaining made, 1 ≤ remaining →
      (retryGo f base mult remaining made).1 = made + remaining ∧
      (∃ m, (retryGo f base mult remaining made).2.2 = .error ⟨m, true⟩) ∧
      (retryGo f base mult remaining made).2.1 =
        (List.range (remaining - 1)).map (fun i => base * mult ^ (made + i)) := by
  intro remaining
  induction remaining with
  | zero => intro made h; omega
  | succ r ih =>
    intro made _
    obtain ⟨msg, hm⟩ := hf made
    by_cases hr : r = 0
    · subst hr
      simp [retryGo, hm]
    · have ihr := ih (made + 1) (by omega)
      have hrange : List.range (r + 1 - 1) = List.range ((r - 1) + 1) := by
        congr 1
        omega
      simp only [retryGo, hm]
      rw [if_pos (show True ∧ r ≠ 0 from ⟨trivial, hr⟩)]
      refine ⟨?_, ihr.2.1, ?_⟩
      · show (retryGo f base mult r (made + 1)).1 = made + (r + 1)
        rw [ihr.1]
        omega
      · show base * mult ^ made :: (retryGo f base mult r (made + 1)).2.1 = _
        rw [ihr.2.2, hrange, List.range_succ_eq_map]
        simp only [List.map_cons, List.map_map, Nat.add_zero]
        congr 1
        apply List.map_congr_left
        intro i _
        simp only [Function.comp_apply]
        congr 2
        omega

/-- Claim C7: when the embedding capability fails transiently on every call,
`answer` returns `ProcessingError`, the capability is called exactly
`maxAttempts` times with exponential backoff delays between attempts, and a
non-transient first failure is never retried (exactly one call is made). -/
theorem claim_C7 (cfg : AnswerConfig) (sim : List ℚ → List ℚ → ℚ)
    (genF : ℕ → Except CapabilityError (List Char)) (cache : Cache ℚ)
    (q : List Char) (f : ℕ → Except CapabilityError (List ℚ))
    (g : ℕ → Except CapabilityError (List ℚ))
    (hv : ∃ t, validateQuestion cfg q = .ok t)
    (h1 : 1 ≤ cfg.maxAttempts)
    (hf : ∀ i, ∃ m, f i = .error ⟨m, true⟩) :
    (∃ r, answer cfg sim f genF cache q = .processingError r) ∧
    (retryPolicy cfg.maxAttempts cfg.baseDelay cfg.backoffMultiplier f).1 =
      cfg.maxAttempts ∧
    (retryPolicy cfg.maxAttempts cfg.baseDelay cfg.backoffMultiplier f).2.1 =
      (List.range (cfg.maxAttempts - 1)).map
        (fun i => cfg.baseDelay * cfg.backoffMultiplier ^ i) ∧
    (∀ m, g 0 = .error ⟨m, false⟩ →
      (retryPolicy cfg.maxAttempts cfg.baseDelay cfg.backoffMultiplier g).1 = 1) := by
  have hgo := retryGo_transient f cfg.baseDelay cfg.backoffMultiplier hf
    cfg.maxAttempts 0 h1
  obtain ⟨hv_t, hvq⟩ := hv
  obtain ⟨me, hme⟩ := hgo.2.1
  refine ⟨⟨me, ?_⟩, by simpa using hgo.1, by simpa using hgo.2.2, ?_⟩
  · unfold answer
    rw [hvq]
    rw [show (retryPolicy cfg.maxAttempts cfg.baseDelay cfg.backoffMultiplier f).2.2 =
      .error ⟨me, true⟩ from hme]
  · intro m hg0
    obtain ⟨k, hk⟩ : ∃ k, cfg.maxAttempts = k + 1 := ⟨cfg.maxAttempts - 1, by omega⟩
    rw [retryPolicy, hk]
    simp [retryGo, hg0]

/-- Witness for C7: with 3 configured attempts and an always-transiently
failing embedding capability, `answer` returns `ProcessingError`, exactly 3
calls are made, the backoff delays are 1 and 2 (base 1, multiplier 2), and a
non-transient first failure stops after exactly 1 call. -/
theorem claim_C7_witness :
    (∃ r, answer ⟨3, 500, 3, 1, 2, 5, 0⟩ (fun _ _ => 0)
      (fun _ => .error ⟨"t".toList, true⟩) (fun _ => .ok [])
      (emptyCache "m".toList 1) "valid question".toList = .processingError r) ∧
    (retryPolicy 3 1 2 (fun _ => .error (⟨"t".toList, true⟩ : CapabilityError) :
      ℕ → Except CapabilityError (List ℚ))).1 = 3 ∧
    (retryPolicy 3 1 2 (fun _ => .error (⟨"t".toList, true⟩ : CapabilityError) :
      ℕ → Except CapabilityError (List ℚ))).2.1 = [1, 2] ∧
    (retryPolicy 3 1 2 (fun _ => .error (⟨"v".toList, false⟩ : CapabilityError) :
      ℕ → Except CapabilityError (List ℚ))).1 = 1 := by
  have h := claim_C7 ⟨3, 500, 3, 1, 2, 5, 0⟩ (fun _ _ => 0) (fun _ => .ok [])
    (emptyCache "m".toList 1) "valid question".toList
    (fun _ => .error ⟨"t".toList, true⟩) (fun _ => .error ⟨"v".toList, false⟩)
    ⟨jsTrim "valid question".toList, rfl⟩ (by decide)
    (fun _ => ⟨"t".toList, rfl⟩)
  refine ⟨h.1, h.2.1, ?_, h.2.2.2 "v".toList rfl⟩
  rw [h.2.2.1]
  norm_num [List.range_succ]

/-- Claim C6: `persist()` followed by `load()` reproduces an identical entry
set — the same document ids, each mapped to a record with the original
vector (the model is exact, so equality holds outright, hence within any
tolerance). -/
theorem claim_C6 (c : Cache ℚ) (model : List Char) (dim : ℕ) (h : wfCache c) :
    load model dim (some (persist c)) = c ∧
    (load model dim (some (persist c))).entries.map Prod.fst =
      c.entries.map Prod.fst ∧
    ∀ docId, cacheGet (load model dim (some (persist c))) docId = cacheGet c docId := by
  have hw : wfFile (persist c) = true := h
  have hl : load model dim (some (persist c)) = c := by
    have hdef : load model dim (some (persist c)) =
        if wfFile (persist c) = true then
          ⟨(persist c).model_name, (persist c).dimension, (persist c).entries⟩
        else emptyCache model dim := rfl
    rw [hdef, if_pos hw]
    exact rfl
  exact ⟨hl, by rw [hl], fun _ => by rw [hl]⟩

/-- Witness for C6 at a concrete one-entry cache. -/
theorem claim_C6_witness :
    load "m".toList 1
      (some (persist ⟨"m".toList, 1, [("a".toList, ⟨"a".toList, [1], "m".toList, 0⟩)]⟩)) =
      ⟨"m".toList, 1, [("a".toList, ⟨"a".toList, [1], "m".toList, 0⟩)]⟩ :=
  (claim_C6 ⟨"m".toList, 1, [("a".toList, ⟨"a".toList, [1], "m".toList, 0⟩)]⟩
    "m".toList 1 (by unfold wfCache; decide)).1

theorem retrieve_def {K : Type} [LinearOrder K] (sim : List K → List K → K)
    (query : List K) (c : Cache K) (maxR : ℕ) (minS : K) :
    retrieve sim query c maxR minS =
      (List.insertionSort retrieveLE
        ((c.entries.enum.map (fun p =>
          RetrievalResult.mk p.2.2.document_id (sim query p.2.2.vector) p.1)).filter
            (fun e => decide (minS ≤ e.similarity)))).take maxR := rfl

/-- Claim C3: for every query vector, cache, bound and threshold, the
retrieval output is sorted non-increasing by similarity with ties broken by
cache insertion order, every returned similarity is at least the threshold,
and at most `maxResults` results are returned. -/
theorem claim_C3 (query : List ℝ) (c : Cache ℝ) (maxR : ℕ) (minS : ℝ) :
    List.Pairwise (fun a b => b.similarity ≤ a.similarity ∧
        (a.similarity = b.similarity → a.idx ≤ b.idx))
      (retrieve (cosineSim Real.sqrt) query c maxR minS) ∧
    (∀ e ∈ retrieve (cosineSim Real.sqrt) query c maxR minS,
      minS ≤ e.similarity) ∧
    (retrieve (cosineSim Real.sqrt) query c maxR minS).length ≤ maxR := by
  rw [retrieve_def]
  refine ⟨?_, ?_, ?_⟩
  · refine List.Pairwise.sublist (List.take_sublist _ _)
      ((List.sorted_insertionSort retrieveLE _).imp ?_)
    intro a b hab
    rcases hab with h | ⟨he, hi⟩
    · exact ⟨le_of_lt h, fun hab' => absurd h (by rw [hab']; exact lt_irrefl _)⟩
    · exact ⟨le_of_eq he.symm, fun _ => hi⟩
  · intro e he
    have h1 : e ∈ List.insertionSort retrieveLE _ := (List.take_sublist _ _).subset he
    rw [List.mem_insertionSort] at h1
    exact of_decide_eq_true (List.mem_filter.mp h1).2
  · exact List.length_take_le _ _

/-- Witness for C3: retrieval from the empty cache stays within the bound and
the threshold. -/
theorem claim_C3_witness :
    (∀ e ∈ retrieve (cosineSim Real.sqrt) ([] : List ℝ)
        (Cache.mk "m".toList 0 []) 3 0, (0 : ℝ) ≤ e.similarity) ∧
    (retrieve (cosineSim Real.sqrt) ([] : List ℝ)
        (Cache.mk "m".toList 0 []) 3 0).length ≤ 3 :=
  ⟨(claim_C3 [] (Cache.mk "m".toList 0 []) 3 0).2.1,
    (claim_C3 [] (Cache.mk "m".toList 0 []) 3 0).2.2⟩

theorem chunksGo_fuel_irrel {α : Type} (b : ℕ) :
    ∀ fuel fuel' (l : List α), l.length ≤ fuel → l.length ≤ fuel' →
      chunksGo b fuel l = chunksGo b fuel' l := by
  intro fuel
  induction fuel with
  | zero =>
    intro fuel' l h _
    have : l = [] := List.eq_nil_of_length_eq_zero (Nat.le_zero.mp h)
    subst this
    cases fuel' <;> rfl
  | succ f ih =>
    intro fuel' l h h'
    cases l with
    | nil => cases fuel' <;> rfl
    | cons x xs =>
      cases fuel' with
      | zero => simp at h'
      | succ f' =>
        by_cases hb : b = 0
        · simp [chunksGo, hb]
        · have hb1 : 1 ≤ b := Nat.one_le_iff_ne_zero.mpr hb
          have hd : ((x :: xs).drop b).length ≤ f := by
            simp only [List.length_drop, List.length_cons]
            simp only [List.length_cons] at h
            omega
          have hd' : ((x :: xs).drop b).length ≤ f' := by
            simp only [List.length_drop, List.length_cons]
            simp only [List.length_cons] at h'
            omega
          simp only [chunksGo, if_neg hb]
          rw [ih f' _ hd hd']

theorem chunks_nil {α : Type} (b : ℕ) : chunks b ([] : List α) = [] := rfl

theorem chunks_zero {α : Type} (l : List α) : chunks 0 l = [] := by
  cases l <;> rfl

theorem chunks_eq {α : Type} (b : ℕ) (l : List α) (hl : l ≠ []) (hb : b ≠ 0) :
    chunks b l = l.take b :: chunks b (l.drop b) := by
  cases l with
  | nil => exact absurd rfl hl
  | cons x xs =>
    show chunksGo b (xs.length + 1) (x :: xs) = _
    simp only [chunksGo, if_neg hb]
    rw [chunksGo_fuel_irrel b xs.length ((x :: xs).drop b).length ((x :: xs).drop b)
      (by simp only [List.length_drop, List.length_cons]; omega) le_rfl]
    rfl

theorem flatten_chunks {α : Type} (b : ℕ) (hb : b ≠ 0) (l : List α) :
    (chunks b l).flatten = l := by
  by_cases hl : l = []
  · subst hl
    simp [chunks_nil]
  · rw [chunks_eq b l hl hb, List.flatten_cons, flatten_chunks b hb (l.drop b)]
    exact List.take_append_drop b l
termination_by l.length
decreasing_by
  simp only [List.length_drop]
  have := List.length_pos.mpr hl
  omega

theorem chunkShape_chunks {α : Type} (b : ℕ) (hb : b ≠ 0) (l : List α) :
    ChunkShape b (chunks b l) := by
  by_cases hl : l = []
  · subst hl
    exact .nil
  · rw [chunks_eq b l hl hb]
    by_cases hd : l.drop b = []
    · rw [hd, chunks_nil]
      refine .single _ ?_ ?_
      · simp only [ne_eq, List.take_eq_nil_iff]
        push_neg
        exact ⟨hb, hl⟩
      · exact (List.length_take b l).le.trans (min_le_left _ _)
    · have hlen : b < l.length := by
        by_contra hc
        exact hd (List.drop_eq_nil_of_le (by omega))
      refine .cons _ _ ?_ ?_ (chunkShape_chunks b hb (l.drop b))
      · rw [List.length_take]
        exact min_eq_left (le_of_lt hlen)
      · rw [chunks_eq b _ hd hb]
        exact List.cons_ne_nil _ _
termination_by l.length
decreasing_by
  simp only [List.length_drop]
  have := List.length_pos.mpr hl
  omega

theorem chunkShape_filter {α : Type} (b : ℕ) (hb : b ≠ 0) (p : List α → Bool) :
    ∀ L : List (List α), ChunkShape b L → ChunkShape b (L.filter p) := by
  intro L hL
  induction hL with
  | nil => exact .nil
  | single l hne hle =>
    by_cases hp : p l
    · simpa [List.filter, hp] using ChunkShape.single l hne hle
    · simp only [List.filter_cons, hp, Bool.false_eq_true, if_false, List.filter_nil]
      exact .nil
  | cons l L hlen hne hsh ih =>
    by_cases hp : p l
    · simp only [List.filter_cons, hp, if_true]
      by_cases hf : L.filter p = []
      · rw [hf]
        refine .single _ ?_ (le_of_eq hlen)
        intro hcon
        rw [hcon] at hlen
        simp at hlen
        exact hb hlen.symm
      · exact .cons _ _ hlen hf ih
    · simp only [List.filter_cons, hp, Bool.false_eq_true, if_false]
      exact ih

theorem chunks_flatten_of_shape {α : Type} (b : ℕ) (hb : b ≠ 0) :
    ∀ L : List (List α), ChunkShape b L → chunks b L.flatten = L := by
  intro L hL
  induction hL with
  | nil => simp [chunks_nil]
  | single l hne hle =>
    rw [List.flatten_cons, List.flatten_nil, List.append_nil, chunks_eq b l hne hb,
      List.take_of_length_le hle, List.drop_eq_nil_of_le hle, chunks_nil]
  | cons l L hlen hne hsh ih =>
    have hjoin_ne : l ++ L.flatten ≠ [] := by
      intro hcon
      have : l = [] := by
        cases l with
        | nil => rfl
        | cons a as => simp at hcon
      rw [this] at hlen
      simp at hlen
      omega
    rw [List.flatten_cons, chunks_eq b _ hjoin_ne hb]
    rw [List.take_append_of_le_length (le_of_eq hlen.symm),
      List.take_of_length_le (le_of_eq hlen),
      List.drop_append_of_le_length (le_of_eq hlen.symm),
      List.drop_eq_nil_of_le (le_of_eq hlen), List.nil_append, ih]

theorem find?_putEntry_self {K : Type} (e : List Char × EmbeddingRecord K) :
    ∀ l : List (List Char × EmbeddingRecord K),
      (putEntry l e).find? (fun p => decide (p.1 = e.1)) = some e := by
  intro l
  induction l with
  | nil =>
    show List.find? _ [e] = some e
    rw [List.find?_cons_of_pos _ (by simp)]
  | cons p rest ih =>
    by_cases hp : p.1 = e.1
    · rw [show putEntry (p :: rest) e = e :: rest from by simp [putEntry, hp]]
      rw [List.find?_cons_of_pos _ (by simp)]
    · rw [show putEntry (p :: rest) e = p :: putEntry rest e from by simp [putEntry, hp]]
      rw [List.find?_cons_of_neg _ (by simp [hp])]
      exact ih

theorem find?_putEntry_ne {K : Type} (e : List Char × EmbeddingRecord K)
    (docId : List Char) (hne : docId ≠ e.1) :
    ∀ l : List (List Char × EmbeddingRecord K),
      (putEntry l e).find? (fun p => decide (p.1 = docId)) =
        l.find? (fun p => decide (p.1 = docId)) := by
  intro l
  induction l with
  | nil =>
    show List.find? _ [e] = List.find? _ []
    rw [List.find?_cons_of_neg _ (by simp [Ne.symm hne]), List.find?_nil]
  | cons p rest ih =>
    by_cases hp : p.1 = e.1
    · have hp2 : p.1 ≠ docId := fun h => hne (h.symm.trans hp)
      rw [show putEntry (p :: rest) e = e :: rest from by simp [putEntry, hp]]
      rw [List.find?_cons_of_neg _ (by simp [Ne.symm hne]),
        List.find?_cons_of_neg _ (by simp [hp2])]
    · rw [show putEntry (p :: rest) e = p :: putEntry rest e from by simp [putEntry, hp]]
      by_cases hpd : p.1 = docId
      · rw [List.find?_cons_of_pos _ (by simp [hpd]),
          List.find?_cons_of_pos _ (by simp [hpd])]
      · rw [List.find?_cons_of_neg _ (by simp [hpd]),
          List.find?_cons_of_neg _ (by simp [hpd])]
        exact ih

theorem cacheGet_cachePut_self {K : Type} (c : Cache K) (r : EmbeddingRecord K) :
    cacheGet (cachePut c r) r.document_id = some r := by
  unfold cacheGet cachePut
  rw [find?_putEntry_self (r.document_id, r) c.entries]

theorem cacheGet_cachePut_ne {K : Type} (c : Cache K) (r : EmbeddingRecord K)
    (docId : List Char) (h : docId ≠ r.document_id) :
    cacheGet (cachePut c r) docId = cacheGet c docId := by
  unfold cacheGet cachePut
  rw [find?_putEntry_ne (r.document_id, r) docId h c.entries]

theorem cachePut_model {K : Type} (c : Cache K) (r : EmbeddingRecord K) :
    (cachePut c r).model_name = c.model_name := rfl

theorem writeBatch_cons (model : List Char) (d : Document) (ds : List Document)
    (v : List ℚ) (vs : List (List ℚ)) (c : Cache ℚ) :
    writeBatch model (d :: ds) (v :: vs) c =
      writeBatch model ds vs (cachePut c ⟨d.id, v, model, fingerprintOf d.text⟩) := rfl

theorem writeBatch_nil_left (model : List Char) (vs : List (List ℚ)) (c : Cache ℚ) :
    writeBatch model [] vs c = c := rfl

theorem writeBatch_nil_right (model : List Char) (batch : List Document) (c : Cache ℚ) :
    writeBatch model batch [] c = c := by
  cases batch <;> rfl

theorem writeBatch_model (model : List Char) :
    ∀ (batch : List Document) (vs : List (List ℚ)) (c : Cache ℚ),
      (writeBatch model batch vs c).model_name = c.model_name := by
  intro batch
  induction batch with
  | nil => intro vs c; rfl
  | cons d ds ih =>
    intro vs c
    cases vs with
    | nil => rw [writeBatch_nil_right]
    | cons v vs' => rw [writeBatch_cons, ih]; rfl

theorem cacheGet_writeBatch_ne (model : List Char) (docId : List Char) :
    ∀ (batch : List Document) (vs : List (List ℚ)) (c : Cache ℚ),
      docId ∉ batch.map Document.id →
      cacheGet (writeBatch model batch vs c) docId = cacheGet c docId := by
  intro batch
  induction batch with
  | nil => intro vs c _; rfl
  | cons d ds ih =>
    intro vs c h
    simp only [List.map_cons, List.mem_cons, not_or] at h
    cases vs with
    | nil => rw [writeBatch_nil_right]
    | cons v vs' =>
      rw [writeBatch_cons, ih vs' _ h.2, cacheGet_cachePut_ne _ _ _ h.1]

theorem cacheGet_writeBatch_mem (model : List Char) :
    ∀ (batch : List Document) (vs : List (List ℚ)) (c : Cache ℚ) (d : Document),
      (batch.map Document.id).Nodup → d ∈ batch → batch.length ≤ vs.length →
      ∃ v, cacheGet (writeBatch model batch vs c) d.id =
        some ⟨d.id, v, model, fingerprintOf d.text⟩ := by
  intro batch
  induction batch with
  | nil => intro vs c d _ hd; exact absurd hd (List.not_mem_nil d)
  | cons d0 ds ih =>
    intro vs c d hnd hd hlen
    cases vs with
    | nil => simp at hlen
    | cons v vs' =>
      simp only [List.map_cons, List.nodup_cons] at hnd
      rw [writeBatch_cons]
      rcases List.mem_cons.mp hd with rfl | hds
      · refine ⟨v, ?_⟩
        rw [cacheGet_writeBatch_ne model d.id ds vs' _ hnd.1]
        exact cacheGet_cachePut_self c ⟨d.id, v, model, fingerprintOf d.text⟩
      · exact ih vs' _ d hnd.2 hds (by simpa using Nat.le_of_succ_le_succ hlen)

theorem runBatches_nil (embed : List (List Char) → Option (List (List ℚ)))
    (model : List Char) (c : Cache ℚ) :
    runBatches embed model [] c = (0, [], c) := rfl

theorem runBatches_cons_some (embed : List (List Char) → Option (List (List ℚ)))
    (model : List Char) (batch : List Document) (rest : List (List Document))
    (c : Cache ℚ) (vs : List (List ℚ)) (h : embed (batch.map Document.text) = some vs) :
    runBatches embed model (batch :: rest) c =
      (batch.length + (runBatches embed model rest (writeBatch model batch vs c)).1,
        (runBatches embed model rest (writeBatch model batch vs c)).2.1,
        (runBatches embed model rest (writeBatch model batch vs c)).2.2) := by
  conv_lhs => rw [runBatches, h]

theorem runBatches_cons_none (embed : List (List Char) → Option (List (List ℚ)))
    (model : List Char) (batch : List Document) (rest : List (List Document))
    (c : Cache ℚ) (h : embed (batch.map Document.text) = none) :
    runBatches embed model (batch :: rest) c =
      ((runBatches embed model rest c).1,
        batch.map Document.id ++ (runBatches embed model rest c).2.1,
        (runBatches embed model rest c).2.2) := by
  conv_lhs => rw [runBatches, h]

theorem runBatches_model (embed : List (List Char) → Option (List (List ℚ)))
    (model : List Char) :
    ∀ (batches : List (List Document)) (c : Cache ℚ),
      (runBatches embed model batches c).2.2.model_name = c.model_name := by
  intro batches
  induction batches with
  | nil => intro c; rfl
  | cons batch rest ih =>
    intro c
    cases h : embed (batch.map Document.text) with
    | none => rw [runBatches_cons_none embed model batch rest c h]; exact ih c
    | some vs =>
      rw [runBatches_cons_some embed model batch rest c vs h]
      rw [ih (writeBatch model batch vs c)]
      exact writeBatch_model model batch vs c

theorem cacheGet_runBatches_unchanged
    (embed : List (List Char) → Option (List (List ℚ))) (model : List Char)
    (docId : List Char) :
    ∀ (batches : List (List Document)) (c : Cache ℚ),
      (∀ batch ∈ batches, embed (batch.map Document.text) = none ∨
        docId ∉ batch.map Document.id) →
      cacheGet (runBatches embed model batches c).2.2 docId = cacheGet c docId := by
  intro batches
  induction batches with
  | nil => intro c _; rfl
  | cons batch rest ih =>
    intro c hb
    cases h : embed (batch.map Document.text) with
    | none =>
      rw [runBatches_cons_none embed model batch rest c h]
      exact ih c (fun b hbm => hb b (List.mem_cons_of_mem _ hbm))
    | some vs =>
      rw [runBatches_cons_some embed model batch rest c vs h]
      rw [ih (writeBatch model batch vs c) (fun b hbm => hb b (List.mem_cons_of_mem _ hbm))]
      rcases hb batch (List.mem_cons_self _ _) with hc | hc
      · rw [h] at hc; exact Option.noConfusion hc
      · exact cacheGet_writeBatch_ne model docId batch vs c hc

theorem runBatches_count_zero (embed : List (List Char) → Option (List (List ℚ)))
    (model : List Char) :
    ∀ (batches : List (List Document)) (c : Cache ℚ),
      (∀ batch ∈ batches, embed (batch.map Document.text) = none) →
      (runBatches embed model batches c).1 = 0 := by
  intro batches
  induction batches with
  | nil => intro c _; rfl
  | cons batch rest ih =>
    intro c hb
    rw [runBatches_cons_none embed model batch rest c (hb batch (List.mem_cons_self _ _))]
    exact ih c (fun b hbm => hb b (List.mem_cons_of_mem _ hbm))

theorem cacheGet_runBatches_success
    (embed : List (List Char) → Option (List (List ℚ))) (model : List Char)
    (hlen : ∀ ts vs, embed ts = some vs → vs.length = ts.length) :
    ∀ (batches : List (List Document)) (c : Cache ℚ) (batch : List Document)
      (d : Document),
      (batches.flatten.map Document.id).Nodup →
      batch ∈ batches → d ∈ batch →
      (∃ vs, embed (batch.map Document.text) = some vs) →
      ∃ v, cacheGet (runBatches embed model batches c).2.2 d.id =
        some ⟨d.id, v, model, fingerprintOf d.text⟩ := by
  intro batches
  induction batches with
  | nil => intro c batch d _ hbm; exact absurd hbm (List.not_mem_nil _)
  | cons b0 rest ih =>
    intro c batch d hnd hbm hdm hsucc
    have hnd' : ((b0.map Document.id) ++ (rest.flatten.map Document.id)).Nodup := by
      simpa [List.flatten_cons, List.map_append] using hnd
    have hnd_app := List.nodup_append.mp hnd'
    rcases List.mem_cons.mp hbm with rfl | hbrest
    · obtain ⟨vs, hvs⟩ := hsucc
      rw [runBatches_cons_some embed model batch rest c vs hvs]
      have hid_in : d.id ∈ batch.map Document.id := List.mem_map_of_mem _ hdm
      have hdis : d.id ∉ rest.flatten.map Document.id := fun hmem =>
        hnd_app.2.2 hid_in hmem
      rw [cacheGet_runBatches_unchanged embed model d.id rest _
        (fun br hbr => Or.inr (fun hmem => by
          obtain ⟨x, hx, hxid⟩ := List.mem_map.mp hmem
          exact hdis (List.mem_map.mpr ⟨x, List.mem_flatten.mpr ⟨br, hbr, hx⟩, hxid⟩)))]
      have hvslen : batch.length ≤ vs.length := by
        rw [hlen _ _ hvs, List.length_map]
      exact cacheGet_writeBatch_mem model batch vs c d hnd_app.1 hdm hvslen
    · have hndrest : (rest.flatten.map Document.id).Nodup := hnd_app.2.1
      cases h0 : embed (b0.map Document.text) with
      | none =>
        rw [runBatches_cons_none embed model b0 rest c h0]
        exact ih c batch d hndrest hbrest hdm hsucc
      | some vs0 =>
        rw [runBatches_cons_some embed model b0 rest c vs0 h0]
        exact ih (writeBatch model b0 vs0 c) batch d hndrest hbrest hdm hsucc

theorem flatten_sublist_of_sublist {α : Type} {L' L : List (List α)}
    (h : List.Sublist L' L) : List.Sublist L'.flatten L.flatten := by
  induction h with
  | slnil => exact List.Sublist.refl _
  | cons b _ ih =>
    rw [List.flatten_cons]
    exact ih.trans (List.sublist_append_right _ _)
  | cons₂ b _ ih =>
    rw [List.flatten_cons, List.flatten_cons]
    exact ih.append_left b

theorem filter_mem_of_sublist {α : Type} [DecidableEq α] :
    ∀ {S l : List α}, List.Sublist S l → l.Nodup →
      l.filter (fun x => decide (x ∈ S)) = S := by
  intro S l h
  induction h with
  | slnil => intro _; rfl
  | @cons S l a hsub ih =>
    intro hnd
    rw [List.filter_cons]
    have hna : a ∉ S := fun ha => (List.nodup_cons.mp hnd).1 (hsub.subset ha)
    rw [if_neg (by simpa using hna)]
    exact ih (List.nodup_cons.mp hnd).2
  | @cons₂ S l a hsub ih =>
    intro hnd
    rw [List.filter_cons, if_pos (by simp)]
    have hnal : a ∉ l := (List.nodup_cons.mp hnd).1
    have hfc : l.filter (fun x => decide (x ∈ a :: S)) =
        l.filter (fun x => decide (x ∈ S)) := by
      apply List.filter_congr
      intro x hx
      have hxa : x ≠ a := fun hcon => hnal (hcon ▸ hx)
      simp [List.mem_cons, hxa]
    rw [hfc, ih (List.nodup_cons.mp hnd).2]

theorem isFresh_congr {K : Type} (c c' : Cache K) (d : Document)
    (hget : cacheGet c' d.id = cacheGet c d.id)
    (hmodel : c'.model_name = c.model_name) :
    isFresh c' d = isFresh c d := by
  unfold isFresh
  rw [hget, hmodel]

/-- Claim C5 (amended): for a corpus with no duplicate document ids and a
(deterministic) embedding capability that returns one vector per input text,
running `reconcile` twice with `force_regenerate = false` and no corpus change
yields `embedded_count = 0` on the second call: entries written or reused by
the first run are fresh for the second, and batches that failed in the first
run regroup into exactly the same batches and fail again. -/
theorem claim_C5_amended (batchSize : ℕ)
    (embed : List (List Char) → Option (List (List ℚ)))
    (corpus : List Document) (c0 : Cache ℚ)
    (hnd : (corpus.map Document.id).Nodup)
    (hlen : ∀ ts vs, embed ts = some vs → vs.length = ts.length) :
    (reconcile batchSize embed false corpus
      (reconcile batchSize embed false corpus c0).2).1.embedded_count = 0 := by
  by_cases hb : batchSize = 0
  · subst hb
    show (runBatches embed _ (chunks 0 _) _).1 = 0
    rw [chunks_zero, runBatches_nil]
  · have hinj := List.inj_on_of_nodup_map hnd
    have hndcorpus : corpus.Nodup := List.Nodup.of_map _ hnd
    set P1 := corpus.filter (fun d => !isFresh c0 d) with hP1def
    set B := chunks batchSize P1 with hBdef
    set R := runBatches embed c0.model_name B c0 with hRdef
    have hc1model : R.2.2.model_name = c0.model_name :=
      runBatches_model embed c0.model_name B c0
    have hndP1 : (P1.map Document.id).Nodup :=
      List.Nodup.sublist ((List.filter_sublist corpus).map Document.id) hnd
    have hBflat : B.flatten = P1 := flatten_chunks batchSize hb P1
    have hndBids : (B.flatten.map Document.id).Nodup := by
      rw [hBflat]; exact hndP1
    have hndBvals : B.flatten.Nodup := List.Nodup.of_map _ hndBids
    have hdisjB := (List.nodup_flatten.mp hndBvals).2
    have hmemP1 : ∀ {br : List Document} {d' : Document},
        br ∈ B → d' ∈ br → d' ∈ P1 := by
      intro br d' hbr hd'
      rw [← hBflat]
      exact List.mem_flatten.mpr ⟨_, hbr, hd'⟩
    have huniqB : ∀ {d : Document} {b1 b2 : List Document},
        b1 ∈ B → b2 ∈ B → d ∈ b1 → d ∈ b2 → b1 = b2 := by
      intro d b1 b2 h1 h2 hd1 hd2
      by_contra hne
      exact (hdisjB.forall (fun _ _ h => h.symm) h1 h2 hne) hd1 hd2
    set FB := B.filter (fun b => (embed (b.map Document.text)).isNone) with hFBdef
    have hfresh : ∀ d ∈ corpus, (!isFresh R.2.2 d) = decide (d ∈ FB.flatten) := by
      intro d hd
      by_cases hf0 : isFresh c0 d = true
      · have hdP1 : d ∉ P1 := by
          intro hmem
          have := (List.mem_filter.mp hmem).2
          rw [hf0] at this
          exact Bool.noConfusion this
        have hnotid : ∀ br ∈ B, d.id ∉ br.map Document.id := by
          intro br hbr hmem
          obtain ⟨d', hd', hid⟩ := List.mem_map.mp hmem
          have hd'corpus : d' ∈ corpus := (List.mem_filter.mp (hmemP1 hbr hd')).1
          have hde : d' = d := hinj hd'corpus hd hid
          exact hdP1 (hde ▸ hmemP1 hbr hd')
        have hget : cacheGet R.2.2 d.id = cacheGet c0 d.id :=
          cacheGet_runBatches_unchanged embed c0.model_name d.id B c0
            (fun br hbr => Or.inr (hnotid br hbr))
        have hf1 : isFresh R.2.2 d = true := by
          rw [isFresh_congr c0 R.2.2 d hget hc1model]
          exact hf0
        have hnotFB : d ∉ FB.flatten := by
          intro hmem
          obtain ⟨bf, hbf, hdbf⟩ := List.mem_flatten.mp hmem
          exact hdP1 (hmemP1 (List.mem_filter.mp hbf).1 hdbf)
        rw [hf1]
        simp [hnotFB]
      · have hfb : isFresh c0 d = false := by
          revert hf0
          cases isFresh c0 d <;> simp
        have hdP1 : d ∈ P1 := List.mem_filter.mpr ⟨hd, by rw [hfb]; rfl⟩
        obtain ⟨bd, hbd, hdbd⟩ := List.mem_flatten.mp (by
          rw [hBflat]; exact hdP1)
        cases hsb : embed (bd.map Document.text) with
        | some vs =>
          obtain ⟨v, hv⟩ := cacheGet_runBatches_success embed c0.model_name hlen
            B c0 bd d hndBids hbd hdbd ⟨vs, hsb⟩
          have hf1 : isFresh R.2.2 d = true := by
            unfold isFresh
            rw [hv]
            simp [hc1model]
          have hnotFB : d ∉ FB.flatten := by
            intro hmem
            obtain ⟨bf, hbf, hdbf⟩ := List.mem_flatten.mp hmem
            have hbfB := List.mem_filter.mp hbf
            have hbfbd : bf = bd := huniqB hbfB.1 hbd hdbf hdbd
            have hnone := hbfB.2
            rw [hbfbd, hsb] at hnone
            exact Bool.noConfusion hnone
          rw [hf1]
          simp [hnotFB]
        | none =>
          have hget : cacheGet R.2.2 d.id = cacheGet c0 d.id := by
            apply cacheGet_runBatches_unchanged
            intro br hbr
            by_cases hdid : d.id ∈ br.map Document.id
            · left
              obtain ⟨d', hd', hid⟩ := List.mem_map.mp hdid
              have hd'corpus : d' ∈ corpus := (List.mem_filter.mp (hmemP1 hbr hd')).1
              have hde : d' = d := hinj hd'corpus hd hid
              have hbrbd : br = bd := huniqB hbr hbd (hde ▸ hd') hdbd
              rw [hbrbd]
              exact hsb
            · right
              exact hdid
          have hf1 : isFresh R.2.2 d = false := by
            rw [isFresh_congr c0 R.2.2 d hget hc1model]
            exact hfb
          have hinFB : d ∈ FB.flatten :=
            List.mem_flatten.mpr ⟨bd,
              List.mem_filter.mpr ⟨hbd, by rw [hsb]; rfl⟩, hdbd⟩
          rw [hf1]
          simp [hinFB]
    have hFBsub : List.Sublist FB.flatten corpus := by
      have h1 : List.Sublist FB B := by
        rw [hFBdef]
        exact List.filter_sublist B
      have h2 := flatten_sublist_of_sublist h1
      rw [hBflat] at h2
      exact h2.trans (List.filter_sublist corpus)
    have hpend2 : corpus.filter (fun d => !isFresh R.2.2 d) = FB.flatten := by
      rw [List.filter_congr (fun d hd => hfresh d hd)]
      exact filter_mem_of_sublist hFBsub hndcorpus
    have hshape : ChunkShape batchSize FB :=
      chunkShape_filter batchSize hb _ B (chunkShape_chunks batchSize hb P1)
    have hchunks2 : chunks batchSize FB.flatten = FB :=
      chunks_flatten_of_shape batchSize hb FB hshape
    show (runBatches embed R.2.2.model_name
      (chunks batchSize (corpus.filter (fun d => !isFresh R.2.2 d))) R.2.2).1 = 0
    rw [hpend2, hchunks2]
    apply runBatches_count_zero
    intro b hbm
    exact Option.isNone_iff_eq_none.mp (List.mem_filter.mp hbm).2

/-- Counterexample to C5 as stated: a corpus with a duplicated document id
("a" with text "x", then "a" with text "y") embeds both copies on the first
run (last one wins in the cache), so on the second run the first copy is
stale again and `embedded_count = 1 ≠ 0` — even though the capability always
succeeds. -/
theorem claim_C5_counterexample :
    ¬((reconcile 10 (fun ts => some (ts.map (fun _ => ([0] : List ℚ)))) false
        [⟨"a".toList, "x".toList⟩, ⟨"a".toList, "y".toList⟩]
        ((reconcile 10 (fun ts => some (ts.map (fun _ => ([0] : List ℚ)))) false
          [⟨"a".toList, "x".toList⟩, ⟨"a".toList, "y".toList⟩]
          (emptyCache "m".toList 1)).2)).1.embedded_count = 0) := by
  decide

/-- Witness for the amended C5 at a concrete duplicate-free corpus with an
always-succeeding capability: the second reconcile run embeds nothing. -/
theorem claim_C5_witness :
    (reconcile 2 (fun ts => some (ts.map (fun _ => ([0] : List ℚ)))) false
      [⟨"a".toList, "x".toList⟩, ⟨"b".toList, "y".toList⟩, ⟨"c".toList, "z".toList⟩]
      ((reconcile 2 (fun ts => some (ts.map (fun _ => ([0] : List ℚ)))) false
        [⟨"a".toList, "x".toList⟩, ⟨"b".toList, "y".toList⟩, ⟨"c".toList, "z".toList⟩]
        (emptyCache "m".toList 1)).2)).1.embedded_count = 0 :=
  claim_C5_amended 2 (fun ts => some (ts.map (fun _ => ([0] : List ℚ))))
    [⟨"a".toList, "x".toList⟩, ⟨"b".toList, "y".toList⟩, ⟨"c".toList, "z".toList⟩]
    (emptyCache "m".toList 1) (by decide)
    (fun ts vs h => by
      injection h with h'
      rw [← h']
      simp)

end QA
